import Mathlib

/-!
# Verification of the open-chart aspect-geometry and annotation engine

Shallow embedding of the pure computational core of
`src/components/report/report-view.tsx` and the report-envelope codec
(`src/unnamed/part_002`), with proofs of the specified properties.

JavaScript `number` arithmetic on angles is modelled over `ℚ`.
JS `%` (truncated remainder, sign of the dividend) is modelled by `jsRem`;
`Math.round` (half toward +∞) by `jsRound`; `Number.prototype.toFixed(2)`
on non-negative values (half away from zero = half up) by `round2`.
-/

namespace OpenChart

/-- Truncation toward zero of a rational, as JS integer division truncates. -/
def ratTrunc (x : ℚ) : ℤ :=
  if x < 0 then ⌈x⌉ else ⌊x⌋

/-- JS `%`: truncated remainder, `a % m = a - m * trunc (a / m)`. -/
def jsRem (a m : ℚ) : ℚ :=
  a - m * ratTrunc (a / m)

/-- JS `Math.round`: rounds half toward positive infinity. -/
def jsRound (x : ℚ) : ℤ :=
  ⌊x + 1 / 2⌋

/-- `normalizeSigned180` from `report-view.tsx`:
`let v = value % 360; if (v > 180) v -= 360; if (v < -180) v += 360; return v`. -/
def normalizeSigned180 (value : ℚ) : ℚ :=
  let v := jsRem value 360
  let v := if v > 180 then v - 360 else v
  let v := if v < -180 then v + 360 else v
  v

/-- `aspectOrbFromDelta` from `report-view.tsx`. -/
def aspectOrbFromDelta (delta aspectDeg : ℚ) : ℚ :=
  if aspectDeg = 0 then
    |normalizeSigned180 delta|
  else
    min |normalizeSigned180 (delta - aspectDeg)| |normalizeSigned180 (delta + aspectDeg)|

/-- `normalizedDistance` from `report-view.tsx`:
`raw = Math.abs(a - b) % 360; return raw > 180 ? 360 - raw : raw`. -/
def normalizedDistance (a b : ℚ) : ℚ :=
  let raw := jsRem |a - b| 360
  if raw > 180 then 360 - raw else raw

/-- `Number.prototype.toFixed(2)` composed with `Number(...)`, on the
non-negative orbs it is applied to: round half up at two decimal places. -/
def round2 (q : ℚ) : ℚ :=
  (⌊q * 100 + 1 / 2⌋ : ℚ) / 100

/-- The `NatalPlanet` fields the aspect engine reads. -/
structure NatalPlanet where
  id : String
  abs_pos : ℚ
  speed : Option ℚ := none
  retrograde : Bool := false
deriving DecidableEq, Repr

/-- The `NatalAspect` record shape. -/
structure NatalAspect where
  p1 : String
  p2 : String
  type : String
  orb : ℚ
  deg : ℚ
  is_major : Bool
deriving DecidableEq, Repr

/-- The `AspectStrength` result of `getAspectStrength`. -/
structure AspectStrength where
  label : String
  score : ℤ
deriving DecidableEq, Repr

/-- `getAspectStrength` from `report-view.tsx`. -/
def getAspectStrength (orb : ℚ) : AspectStrength :=
  let score := max 5 (min 100 (jsRound (100 - orb * 10)))
  if orb ≤ 3 / 2 then ⟨"Very strong", score⟩
  else if orb ≤ 3 then ⟨"Strong", score⟩
  else if orb ≤ 5 then ⟨"Moderate", score⟩
  else if orb ≤ 7 then ⟨"Subtle", score⟩
  else ⟨"Faint", score⟩

/-- `getSignedSpeed` from `report-view.tsx`. -/
def getSignedSpeed (planet : NatalPlanet) : Option ℚ :=
  match planet.speed with
  | none => none
  | some s =>
    let magnitude := |s|
    some (if planet.retrograde then -magnitude else magnitude)

/-- One entry of the `pointState` map built in the report view:
a longitude and an optional signed speed. -/
structure PointState where
  lon : ℚ
  speed : Option ℚ
deriving DecidableEq, Repr

/-- `getAspectPhase` from `report-view.tsx`, with the two `pointState`
map lookups (`pointState.get(aspect.p1.toLowerCase())` etc.) passed in as
`Option PointState` values and the aspect's `deg` field as `aspectDeg`. -/
def getAspectPhase (p1 p2 : Option PointState) (aspectDeg : ℚ) : String :=
  match p1, p2 with
  | some q1, some q2 =>
    match q1.speed, q2.speed with
    | some s1, some s2 =>
      let deltaNow := normalizeSigned180 (q2.lon - q1.lon)
      let orbNow := aspectOrbFromDelta deltaNow aspectDeg
      let dtDays : ℚ := 1 / 24
      let deltaFuture := normalizeSigned180 ((q2.lon + s2 * dtDays) - (q1.lon + s1 * dtDays))
      let orbFuture := aspectOrbFromDelta deltaFuture aspectDeg
      if |orbFuture - orbNow| < 5 / 10000 then "Unknown"
      else if orbFuture < orbNow then "Applying"
      else "Separating"
    | _, _ => "Unknown"
  | _, _ => "Unknown"

/-- `sortAspects` from `report-view.tsx`: stable ascending sort by orb
(JS `Array.prototype.sort` with comparator `a.orb - b.orb` is stable). -/
def sortAspects (aspects : List NatalAspect) : List NatalAspect :=
  aspects.mergeSort (fun a b => a.orb ≤ b.orb)

/-- The `AspectCandidate` entries of `MAJOR_ANGLE_ASPECTS`. -/
structure AspectCandidate where
  type : String
  deg : ℚ
  maxOrb : ℚ
deriving DecidableEq, Repr

/-- The `MAJOR_ANGLE_ASPECTS` table from `report-view.tsx`. -/
def MAJOR_ANGLE_ASPECTS : List AspectCandidate :=
  [⟨"conjunction", 0, 6⟩, ⟨"sextile", 60, 9 / 2⟩, ⟨"square", 90, 6⟩,
    ⟨"trine", 120, 6⟩, ⟨"opposition", 180, 6⟩]

/-- `deriveAngleAspects` from `report-view.tsx` (`angleKey` as a string,
`angleAbsPos : Option ℚ` for the `number | undefined` parameter). -/
def deriveAngleAspects (angleKey : String) (angleAbsPos : Option ℚ)
    (planets : List NatalPlanet) : List NatalAspect :=
  match angleAbsPos with
  | none => []
  | some pos =>
    let result := planets.flatMap fun planet =>
      MAJOR_ANGLE_ASPECTS.filterMap fun candidate =>
        let distance := normalizedDistance pos planet.abs_pos
        let orb := |distance - candidate.deg|
        if orb ≤ candidate.maxOrb then
          some ⟨angleKey, planet.id, candidate.type, round2 orb, candidate.deg, true⟩
        else
          none
    sortAspects result

/-- The `StoredHighlight` record shape (`stop` models the `end` field,
which is a reserved word in Lean). Offsets are JS numbers. -/
structure StoredHighlight where
  id : String
  start : ℚ
  stop : ℚ
  color : String
deriving DecidableEq, Repr

/-- The id minted by `addHighlight`: `h-<start>-<end>-<counter>`. -/
def mkHighlightId (start stop : ℚ) (n : ℕ) : String :=
  "h-" ++ toString start ++ "-" ++ toString stop ++ "-" ++ toString n

/-- `addHighlight` from `report-view.tsx`, restricted to its effect on the
stored highlight list and the id sequence counter: reject when the new range
overlaps any existing one, otherwise append a fresh record. -/
def addHighlight (highlights : List StoredHighlight) (seq : ℕ)
    (start stop : ℚ) (color : String) : List StoredHighlight × ℕ :=
  let overlaps := highlights.any fun item => start < item.stop ∧ stop > item.start
  if overlaps then
    (highlights, seq)
  else
    (highlights ++ [⟨mkHighlightId start stop (seq + 1), start, stop, color⟩], seq + 1)

/-- JSON values, as produced by `JSON.parse`. -/
inductive Json where
  | null : Json
  | bool (b : Bool) : Json
  | num (q : ℚ) : Json
  | str (s : String) : Json
  | arr (items : List Json) : Json
  | obj (fields : List (String × Json)) : Json

/-- First field of an object with the given key, if any. -/
def Json.getField : Json → String → Option Json
  | Json.obj fields, key =>
    match fields.find? (fun f => f.1 = key) with
    | some f => some f.2
    | none => none
  | _, _ => none

/-- The stored-highlight shape check of the highlights loader: an object
with a string `id`, numeric `start`, numeric `end` and string `color`,
extracted into a `StoredHighlight`. -/
def readStoredHighlight (j : Json) : Option StoredHighlight :=
  match j.getField "id", j.getField "start", j.getField "end", j.getField "color" with
  | some (Json.str id), some (Json.num start), some (Json.num stop), some (Json.str color) =>
    some ⟨id, start, stop, color⟩
  | _, _, _, _ => none

/-- The `highlights` loader from `report-view.tsx`: read the raw stored
string (absent → empty), parse it (a parse failure is caught → empty),
require an array (otherwise empty), keep only entries of the stored-highlight
shape, then keep only entries with `start >= 0` and `end > start`.
`parse` stands for `JSON.parse`, returning `none` where it would throw. -/
def loadHighlights (raw : Option String) (parse : String → Option Json) :
    List StoredHighlight :=
  match raw with
  | none => []
  | some s =>
    match parse s with
    | none => []
    | some (Json.arr items) =>
      (items.filterMap readStoredHighlight).filter fun h => h.start ≥ 0 ∧ h.stop > h.start
    | some _ => []

/-- `.toLowerCase()` on the ASCII identifiers the report deals in:
lowercase every character. -/
def jsToLower (s : String) : String :=
  ⟨s.data.map Char.toLower⟩

/-- `[left, right].sort()` on two strings: JS default sort compares the
strings lexicographically ascending; the comparison is taken on the
underlying character lists (`String.lt_iff_toList_lt`: the same order). -/
def sortPair (l r : String) : String × String :=
  if r.data < l.data then (r, l) else (l, r)

/-- The `bestByKey` map key of `dedupeAspects` for a non-self record
(`none` encodes the `continue` on a self pair): the template string
`` `a|b|type` `` of the sorted lowercased endpoint tokens and lowercased
type, paired with the `deg` component. JS renders distinct numbers as
distinct substrings inside the template, so the numeric component is kept
as a separate key component instead of through a decimal rendering. -/
def dedupeKey (aspect : NatalAspect) : Option (String × ℚ) :=
  let left := jsToLower aspect.p1
  let right := jsToLower aspect.p2
  if left = right then none
  else
    let p := sortPair left right
    some (p.1 ++ "|" ++ p.2 ++ "|" ++ jsToLower aspect.type, aspect.deg)

/-- `Map.prototype.get` on an insertion-ordered association list. -/
def mapGet (m : List ((String × ℚ) × NatalAspect)) (k : String × ℚ) :
    Option NatalAspect :=
  match m.find? (fun e => e.1 = k) with
  | some e => some e.2
  | none => none

/-- `Map.prototype.set` on an insertion-ordered association list: update an
existing key in place (keeping its insertion position), else append. -/
def mapSet (m : List ((String × ℚ) × NatalAspect)) (k : String × ℚ)
    (v : NatalAspect) : List ((String × ℚ) × NatalAspect) :=
  match m with
  | [] => [(k, v)]
  | e :: rest => if e.1 = k then (k, v) :: rest else e :: mapSet rest k v

/-- One iteration of the `dedupeAspects` loop. -/
def dedupeStep (m : List ((String × ℚ) × NatalAspect)) (aspect : NatalAspect) :
    List ((String × ℚ) × NatalAspect) :=
  match dedupeKey aspect with
  | none => m
  | some key =>
    match mapGet m key with
    | none => mapSet m key aspect
    | some current => if aspect.orb < current.orb then mapSet m key aspect else m

/-- `dedupeAspects` from `report-view.tsx`: fold the records into
`bestByKey` and return `Array.from(bestByKey.values())`. -/
def dedupeAspects (aspects : List NatalAspect) : List NatalAspect :=
  (aspects.foldl dedupeStep []).map Prod.snd

/-- The group of the deduplication claim: same unordered pair of lowercased
endpoint tokens, same lowercased aspect type, same exact degree. -/
def sameGroup (x y : NatalAspect) : Prop :=
  ((jsToLower x.p1 = jsToLower y.p1 ∧ jsToLower x.p2 = jsToLower y.p2) ∨
    (jsToLower x.p1 = jsToLower y.p2 ∧ jsToLower x.p2 = jsToLower y.p1)) ∧
  jsToLower x.type = jsToLower y.type ∧ x.deg = y.deg

instance (x y : NatalAspect) : Decidable (sameGroup x y) := by
  unfold sameGroup
  infer_instance

/-- A string with no `|` character, so that it cannot collide with the
`|`-separated key template. -/
def noPipe (s : String) : Prop :=
  '|' ∉ s.data

instance (s : String) : Decidable (noPipe s) := by
  unfold noPipe
  infer_instance

/-- The interpretation block of a natal request payload. -/
structure InterpretationOptions where
  enable : Bool
  style : String
  language : Option String := none
deriving DecidableEq, Repr

/-- The whitespace removed by `String.prototype.trim` (the ASCII whitespace
that can occur in the identifiers at hand). -/
def isJsWs (c : Char) : Bool :=
  c = ' ' || c = '\t' || c = '\n' || c = '\r'

/-- JS `String.prototype.trim` (zod's `.trim()` transform). -/
def jsTrim (s : String) : String :=
  ⟨((s.data.dropWhile isJsWs).reverse.dropWhile isJsWs).reverse⟩

/-- The `include_features` enumeration of `natalRequestSchema`. -/
def FEATURE_ENUM : List String :=
  ["asc", "mc", "chiron", "lilith", "true_node", "mean_node"]

/-- `NatalRequestPayload` from `src/lib/types/astro.ts` (the fields the
builder in the envelope module sets; numeric fields are JS numbers). -/
structure NatalRequestPayload where
  name : Option String
  year : ℚ
  month : ℚ
  day : ℚ
  hour : ℚ
  minute : ℚ
  city : String
  lat : ℚ
  lng : ℚ
  tz_str : String
  house_system : String
  zodiac_type : String
  interpretation : InterpretationOptions
  include_features : List String
  include_speed : Bool
  include_dominants : Bool
deriving DecidableEq, Repr

/-- `ReportEnvelope`: the natal request payload plus a creation timestamp
(`Date.now()`, an integral JS number). -/
structure ReportEnvelope where
  payload : NatalRequestPayload
  createdAt : ℤ
deriving DecidableEq, Repr

/-- The fixed (always-present) fields of the stringified payload object,
in the order the builder writes them. -/
def payloadFields (p : NatalRequestPayload) : List (String × Json) :=
  [("year", Json.num p.year), ("month", Json.num p.month),
    ("day", Json.num p.day), ("hour", Json.num p.hour),
    ("minute", Json.num p.minute), ("city", Json.str p.city),
    ("lat", Json.num p.lat), ("lng", Json.num p.lng),
    ("tz_str", Json.str p.tz_str),
    ("house_system", Json.str p.house_system),
    ("zodiac_type", Json.str p.zodiac_type),
    ("interpretation", Json.obj
      ([("enable", Json.bool p.interpretation.enable),
        ("style", Json.str p.interpretation.style)] ++
        (match p.interpretation.language with
         | some l => [("language", Json.str l)]
         | none => []))),
    ("include_features", Json.arr (p.include_features.map Json.str)),
    ("include_speed", Json.bool p.include_speed),
    ("include_dominants", Json.bool p.include_dominants)]

/-- The JSON value produced by `JSON.stringify` on a payload object:
`undefined` optional fields (`name`) are omitted. -/
def payloadToJson (p : NatalRequestPayload) : Json :=
  Json.obj
    ((match p.name with
      | some n => [("name", Json.str n)]
      | none => []) ++ payloadFields p)

/-- The JSON value of the envelope object `{payload, createdAt}`. -/
def envelopeToJson (e : ReportEnvelope) : Json :=
  Json.obj [("payload", payloadToJson e.payload),
    ("createdAt", Json.num (e.createdAt : ℚ))]

/-- An array of strings, read back into the string list. -/
def readStringArray : Json → Option (List String)
  | Json.arr items =>
    items.foldr
      (fun it acc =>
        match it, acc with
        | Json.str s, some l => some (s :: l)
        | _, _ => none)
      (some [])
  | _ => none

/-- An integer-constrained bounded numeric field
(`z.number().int().min(lo).max(hi)` of `natalRequestSchema`). -/
def getIntIn (j : Json) (k : String) (lo hi : ℚ) : Option ℚ :=
  match j.getField k with
  | some (Json.num q) => if q.den = 1 ∧ lo ≤ q ∧ q ≤ hi then some q else none
  | _ => none

/-- A bounded numeric field (`z.number().min(lo).max(hi)`). -/
def getNumIn (j : Json) (k : String) (lo hi : ℚ) : Option ℚ :=
  match j.getField k with
  | some (Json.num q) => if lo ≤ q ∧ q ≤ hi then some q else none
  | _ => none

/-- A trimmed non-empty string field (`z.string().trim().min(1)`); the
parse output is the trimmed value. -/
def getTrimStr (j : Json) (k : String) : Option String :=
  match j.getField k with
  | some (Json.str s) => if 1 ≤ (jsTrim s).length then some (jsTrim s) else none
  | _ => none

/-- A string field constrained to a literal value (`z.literal`). -/
def getLit (j : Json) (k lit : String) : Option String :=
  match j.getField k with
  | some (Json.str s) => if s = lit then some s else none
  | _ => none

/-- A boolean field constrained to `true` (`z.literal(true)`). -/
def getTrue (j : Json) (k : String) : Option Bool :=
  match j.getField k with
  | some (Json.bool b) => if b then some b else none
  | _ => none

/-- The optional `name` field (`z.string().trim().max(120).optional()`):
absent is accepted as `none`, a string is trimmed and bounded, any other
shape is rejected. -/
def getOptName (j : Json) : Option (Option String) :=
  match j.getField "name" with
  | none => some none
  | some (Json.str s) =>
    if (jsTrim s).length ≤ 120 then some (some (jsTrim s)) else none
  | some _ => none

/-- The `interpretation` block of `natalRequestSchema`: `enable` must be
the literal `true`, `style` the literal `improved`, and `language`, when
present, the literal `en`. -/
def getInterp (j : Json) : Option InterpretationOptions :=
  match j.getField "interpretation" with
  | some ji =>
    match ji.getField "enable", ji.getField "style" with
    | some (Json.bool b), some (Json.str s) =>
      match ji.getField "language" with
      | none => if b = true ∧ s = "improved" then some ⟨b, s, none⟩ else none
      | some (Json.str l) =>
        if b = true ∧ s = "improved" ∧ l = "en" then some ⟨b, s, some l⟩ else none
      | some _ => none
    | _, _ => none
  | none => none

/-- The `include_features` field
(`z.array(z.enum([...])).min(2)`): an array of strings drawn from the
feature enumeration, with at least two entries. -/
def getFeatures (j : Json) : Option (List String) :=
  match j.getField "include_features" with
  | some ja =>
    match readStringArray ja with
    | some feats =>
      if (feats.all fun f => FEATURE_ENUM.contains f) ∧ 2 ≤ feats.length then
        some feats
      else none
    | none => none
  | none => none

/-- `natalRequestSchema` from the schema module (`lib/schemas/astro`): a
typed field per property with zod's trim transforms, integer and range
bounds, literal fields, the feature enumeration with its minimum length,
and the optional `name`/`language` fields. -/
def parsePayloadSchema (j : Json) : Option NatalRequestPayload :=
  (getOptName j).bind fun name =>
  (getIntIn j "year" 1800 2100).bind fun year =>
  (getIntIn j "month" 1 12).bind fun month =>
  (getIntIn j "day" 1 31).bind fun day =>
  (getIntIn j "hour" 0 23).bind fun hour =>
  (getIntIn j "minute" 0 59).bind fun minute =>
  (getTrimStr j "city").bind fun city =>
  (getNumIn j "lat" (-90) 90).bind fun lat =>
  (getNumIn j "lng" (-180) 180).bind fun lng =>
  (getTrimStr j "tz_str").bind fun tz =>
  (getLit j "house_system" "placidus").bind fun hs =>
  (getLit j "zodiac_type" "tropical").bind fun zt =>
  (getInterp j).bind fun interp =>
  (getFeatures j).bind fun feats =>
  (getTrue j "include_speed").bind fun spd =>
  (getTrue j "include_dominants").bind fun dom =>
  some ⟨name, year, month, day, hour, minute, city, lat, lng, tz, hs, zt,
    interp, feats, spd, dom⟩

/-- `reportEnvelopeSchema` from the schema module: `createdAt` is a
positive integral number (`z.number().int().positive()`) and `payload`
must satisfy `natalRequestSchema`. -/
def parseEnvelopeSchema (j : Json) : Option ReportEnvelope :=
  (j.getField "payload").bind fun pj =>
  (parsePayloadSchema pj).bind fun payload =>
  (match j.getField "createdAt" with
    | some (Json.num q) => if q.den = 1 ∧ 0 < q then some q.num else none
    | _ => none).bind fun createdAt =>
  some ⟨payload, createdAt⟩

/-- The payload constraints enforced by `natalRequestSchema`, stated on
the structure side: exactly the payloads the schema accepts unchanged
(the trim transforms are the identity on them). -/
def ValidPayload (p : NatalRequestPayload) : Prop :=
  p.name.all (fun n => jsTrim n = n ∧ n.length ≤ 120) = true ∧
  p.year.den = 1 ∧ 1800 ≤ p.year ∧ p.year ≤ 2100 ∧
  p.month.den = 1 ∧ 1 ≤ p.month ∧ p.month ≤ 12 ∧
  p.day.den = 1 ∧ 1 ≤ p.day ∧ p.day ≤ 31 ∧
  p.hour.den = 1 ∧ 0 ≤ p.hour ∧ p.hour ≤ 23 ∧
  p.minute.den = 1 ∧ 0 ≤ p.minute ∧ p.minute ≤ 59 ∧
  jsTrim p.city = p.city ∧ 1 ≤ p.city.length ∧
  -90 ≤ p.lat ∧ p.lat ≤ 90 ∧ -180 ≤ p.lng ∧ p.lng ≤ 180 ∧
  jsTrim p.tz_str = p.tz_str ∧ 1 ≤ p.tz_str.length ∧
  p.house_system = "placidus" ∧ p.zodiac_type = "tropical" ∧
  p.interpretation.enable = true ∧ p.interpretation.style = "improved" ∧
  (p.interpretation.language = none ∨ p.interpretation.language = some "en") ∧
  (p.include_features.all fun f => FEATURE_ENUM.contains f) = true ∧
  2 ≤ p.include_features.length ∧
  p.include_speed = true ∧ p.include_dominants = true

instance (p : NatalRequestPayload) : Decidable (ValidPayload p) := by
  unfold ValidPayload
  infer_instance

/-- `encodeReportEnvelope` from the envelope module:
`encodeURIComponent(toBase64(JSON.stringify(envelope)))`, with the platform
primitives (`JSON.stringify` split into the object-to-JSON-value step
`envelopeToJson` and a rendering `render`, plus `toBase64` and
`encodeURIComponent`) passed in as parameters. -/
def encodeReportEnvelope (render : Json → String)
    (toBase64 percentEncode : String → String) (envelope : ReportEnvelope) :
    String :=
  percentEncode (toBase64 (render (envelopeToJson envelope)))

/-- `decodeReportEnvelope` from the envelope module: percent-decode,
base64-decode, `JSON.parse`, then schema validation; each fallible platform
step returns `none` where the JS would throw (the `try`/`catch` around the
body), and a schema failure yields `none` via `safeParse`. The function is
total: it never throws to the caller. -/
def decodeReportEnvelope (parse : String → Option Json)
    (fromBase64 percentDecode : String → Option String)
    (serialized : String) : Option ReportEnvelope :=
  match percentDecode serialized with
  | none => none
  | some t =>
    match fromBase64 t with
    | none => none
    | some u =>
      match parse u with
      | none => none
      | some j => parseEnvelopeSchema j

/-- Comma-join for rendering. -/
def joinComma : List String → String
  | [] => ""
  | [s] => s
  | s :: rest => s ++ "," ++ joinComma rest

/-- One concrete JSON renderer (a stand-in for the platform
`JSON.stringify` in the witness): fuel-bounded so that the recursion is
structural. Numbers are rendered for the integral JS numbers the witness
envelope uses. -/
def renderJsonFuel : ℕ → Json → String
  | 0, _ => ""
  | _ + 1, Json.null => "null"
  | _ + 1, Json.bool true => "true"
  | _ + 1, Json.bool false => "false"
  | _ + 1, Json.num q =>
    if q.den = 1 then toString q.num else toString q.num ++ "/" ++ toString q.den
  | _ + 1, Json.str s => "\"" ++ s ++ "\""
  | fuel + 1, Json.arr items =>
    "[" ++ joinComma (items.map (renderJsonFuel fuel)) ++ "]"
  | fuel + 1, Json.obj fields =>
    "\x7b" ++
      joinComma (fields.map fun f => "\"" ++ f.1 ++ "\":" ++ renderJsonFuel fuel f.2) ++
      "\x7d"

/-- The witness JSON renderer. -/
def renderJsonW (j : Json) : String :=
  renderJsonFuel 32 j

/-- Digit run to a natural number. -/
def digitsToNat (ds : List Char) : ℕ :=
  ds.foldl (fun n c => 10 * n + (c.toNat - 48)) 0

/-- One concrete JSON parser (a stand-in for the platform `JSON.parse` in
the witness), fuel-bounded, over the whitespace-free grammar the renderer
emits. An array or object tail is parsed by re-prefixing the opening
bracket, which keeps the recursion structural on the fuel. -/
def parseJsonAux : ℕ → List Char → Option (Json × List Char)
  | 0, _ => none
  | _ + 1, 'n' :: 'u' :: 'l' :: 'l' :: rest => some (Json.null, rest)
  | _ + 1, 't' :: 'r' :: 'u' :: 'e' :: rest => some (Json.bool true, rest)
  | _ + 1, 'f' :: 'a' :: 'l' :: 's' :: 'e' :: rest => some (Json.bool false, rest)
  | _ + 1, '"' :: rest =>
    match rest.span (fun c => c ≠ '"') with
    | (body, '"' :: rest') => some (Json.str ⟨body⟩, rest')
    | _ => none
  | fuel + 1, '[' :: rest =>
    match rest with
    | ']' :: rest' => some (Json.arr [], rest')
    | _ =>
      match parseJsonAux fuel rest with
      | some (j, ',' :: rest') =>
        match parseJsonAux fuel ('[' :: rest') with
        | some (Json.arr items, rest'') => some (Json.arr (j :: items), rest'')
        | _ => none
      | some (j, ']' :: rest') => some (Json.arr [j], rest')
      | _ => none
  | fuel + 1, '\x7b' :: rest =>
    match rest with
    | '\x7d' :: rest' => some (Json.obj [], rest')
    | '"' :: rest1 =>
      match rest1.span (fun c => c ≠ '"') with
      | (key, '"' :: ':' :: rest2) =>
        match parseJsonAux fuel rest2 with
        | some (v, ',' :: rest3) =>
          match parseJsonAux fuel ('\x7b' :: rest3) with
          | some (Json.obj fields, rest4) => some (Json.obj ((⟨key⟩, v) :: fields), rest4)
          | _ => none
        | some (v, '\x7d' :: rest3) => some (Json.obj [(⟨key⟩, v)], rest3)
        | _ => none
      | _ => none
    | _ => none
  | _ + 1, '-' :: rest =>
    match rest.span Char.isDigit with
    | ([], _) => none
    | (ds, rest') => some (Json.num (-(digitsToNat ds : ℚ)), rest')
  | _ + 1, cs =>
    match cs.span Char.isDigit with
    | ([], _) => none
    | (ds, rest') => some (Json.num (digitsToNat ds : ℚ), rest')

/-- The witness JSON parser: a full parse of the input. -/
def parseJsonW (s : String) : Option Json :=
  match parseJsonAux 100000 s.data with
  | some (j, []) => some j
  | _ => none

/-- The base64 alphabet. -/
def b64Table : List Char :=
  "ABCDEFGHIJKLMNOPQRSTUVWXYZabcdefghijklmnopqrstuvwxyz0123456789+/".data

/-- The base64 digit for a sextet. -/
def b64Char (n : ℕ) : Char :=
  b64Table.getD n '='

/-- Base64 of a byte list, with padding. -/
def b64EncodeBytes : List ℕ → List Char
  | [] => []
  | [a] => [b64Char (a / 4), b64Char (a % 4 * 16), '=', '=']
  | [a, b] => [b64Char (a / 4), b64Char (a % 4 * 16 + b / 16), b64Char (b % 16 * 4), '=']
  | a :: b :: c :: rest =>
    b64Char (a / 4) :: b64Char (a % 4 * 16 + b / 16) ::
      b64Char (b % 16 * 4 + c / 64) :: b64Char (c % 64) :: b64EncodeBytes rest

/-- The witness `toBase64` (the source's
`btoa(unescape(encodeURIComponent(s)))`): on the ASCII strings of the
witness, the inner UTF-8 step is the identity on the code units. -/
def toBase64W (s : String) : String :=
  ⟨b64EncodeBytes (s.data.map Char.toNat)⟩

/-- Index of a base64 digit. -/
def b64Index (c : Char) : Option ℕ :=
  b64Table.findIdx? (fun d => d = c)

/-- Inverse of `b64EncodeBytes`. -/
def b64DecodeChars : List Char → Option (List ℕ)
  | [] => some []
  | [a, b, '=', '='] =>
    match b64Index a, b64Index b with
    | some ia, some ib => some [ia * 4 + ib / 16]
    | _, _ => none
  | [a, b, c, '='] =>
    match b64Index a, b64Index b, b64Index c with
    | some ia, some ib, some ic => some [ia * 4 + ib / 16, ib % 16 * 16 + ic / 4]
    | _, _, _ => none
  | a :: b :: c :: d :: rest =>
    match b64Index a, b64Index b, b64Index c, b64Index d, b64DecodeChars rest with
    | some ia, some ib, some ic, some id_, some bs =>
      some ((ia * 4 + ib / 16) :: (ib % 16 * 16 + ic / 4) :: (ic % 4 * 64 + id_) :: bs)
    | _, _, _, _, _ => none
  | _ => none

/-- The witness `fromBase64`. -/
def fromBase64W (s : String) : Option String :=
  (b64DecodeChars s.data).map fun bs => ⟨bs.map Char.ofNat⟩

/-- The characters `encodeURIComponent` leaves unescaped. -/
def isUnreservedUri (c : Char) : Bool :=
  c.isAlphanum || c = '-' || c = '_' || c = '.' || c = '!' || c = '~' ||
    c = '*' || c = '\'' || c = '(' || c = ')'

/-- An uppercase hex digit. -/
def hexDigit (n : ℕ) : Char :=
  "0123456789ABCDEF".data.getD n '0'

/-- Percent-encoding of one ASCII character. -/
def percentEncodeChar (c : Char) : List Char :=
  if isUnreservedUri c then [c]
  else ['%', hexDigit (c.toNat / 16), hexDigit (c.toNat % 16)]

/-- The witness `encodeURIComponent` on ASCII strings. -/
def percentEncodeW (s : String) : String :=
  ⟨s.data.flatMap percentEncodeChar⟩

/-- Value of an uppercase hex digit. -/
def hexVal (c : Char) : Option ℕ :=
  "0123456789ABCDEF".data.findIdx? (fun d => d = c)

/-- Inverse of the percent-encoding. -/
def percentDecodeChars : List Char → Option (List Char)
  | [] => some []
  | '%' :: h1 :: h2 :: rest =>
    match hexVal h1, hexVal h2, percentDecodeChars rest with
    | some v1, some v2, some cs => some (Char.ofNat (16 * v1 + v2) :: cs)
    | _, _, _ => none
  | c :: rest =>
    if c = '%' then none
    else (percentDecodeChars rest).map (c :: ·)

/-- The witness `decodeURIComponent`. -/
def percentDecodeW (s : String) : Option String :=
  (percentDecodeChars s.data).map fun cs => ⟨cs⟩

/-- The witness envelope: a schema-valid natal request with a positive
integral timestamp. -/
def witnessEnvelope : ReportEnvelope :=
  ⟨⟨none, 1990, 5, 15, 14, 30, "Paris", 48, 2, "Europe/Paris", "placidus",
    "tropical", ⟨true, "improved", none⟩, ["asc", "mc"], true, true⟩, 1⟩

/-- The loop invariant of `dedupeAspects`: after folding a prefix `pre`,
each map entry is keyed correctly, came from the prefix, and is orb-minimal
for its key among the prefix; every keyed record of the prefix has an entry
with its key; and the keys are distinct. -/
def DedupeInv (pre : List NatalAspect)
    (m : List ((String × ℚ) × NatalAspect)) : Prop :=
  (∀ e ∈ m, dedupeKey e.2 = some e.1 ∧ e.2 ∈ pre ∧
    ∀ x ∈ pre, dedupeKey x = some e.1 → e.2.orb ≤ x.orb) ∧
  (∀ x ∈ pre, ∀ k, dedupeKey x = some k → ∃ e ∈ m, e.1 = k) ∧
  (m.map Prod.fst).Nodup

theorem jsRem_bounds (a : ℚ) : -360 < jsRem a 360 ∧ jsRem a 360 < 360 := by
  unfold jsRem ratTrunc
  split
  · have h1 : (a / 360 : ℚ) ≤ ⌈a / 360⌉ := Int.le_ceil _
    have h2 : (⌈a / 360⌉ : ℚ) < a / 360 + 1 := Int.ceil_lt_add_one _
    constructor <;> nlinarith
  · have h1 : ((⌊a / 360⌋ : ℤ) : ℚ) ≤ a / 360 := Int.floor_le _
    have h2 : (a / 360 : ℚ) < ⌊a / 360⌋ + 1 := Int.lt_floor_add_one _
    constructor <;> nlinarith

theorem jsRem_congruent (a : ℚ) : ∃ k : ℤ, jsRem a 360 = a - 360 * k :=
  ⟨ratTrunc (a / 360), rfl⟩

theorem normalizeSigned180_bounds (a : ℚ) :
    -180 ≤ normalizeSigned180 a ∧ normalizeSigned180 a ≤ 180 := by
  have h := jsRem_bounds a
  unfold normalizeSigned180
  dsimp only
  split <;> split <;> constructor <;> linarith [h.1, h.2]

theorem normalizeSigned180_congruent (a : ℚ) :
    ∃ k : ℤ, normalizeSigned180 a = a - 360 * k := by
  obtain ⟨k, hk⟩ := jsRem_congruent a
  unfold normalizeSigned180
  dsimp only
  split <;> split
  · exact ⟨k + 1 + 1, by push_cast; linarith⟩
  · exact ⟨k + 1, by push_cast; linarith⟩
  · exact ⟨k - 1, by push_cast; linarith⟩
  · exact ⟨k, by linarith⟩

/-- `|normalizeSigned180 (-x)| = |normalizeSigned180 x|`: the two normalized
values are congruent to negatives of each other mod 360 and both lie in
[-180, 180], so they are equal up to sign (with the ±180 edge cases equal in
absolute value). -/
theorem abs_normalizeSigned180_neg (x : ℚ) :
    |normalizeSigned180 (-x)| = |normalizeSigned180 x| := by
  obtain ⟨k₁, hk₁⟩ := normalizeSigned180_congruent (-x)
  obtain ⟨k₂, hk₂⟩ := normalizeSigned180_congruent x
  have hb₁ := normalizeSigned180_bounds (-x)
  have hb₂ := normalizeSigned180_bounds x
  set u := normalizeSigned180 (-x) with hu
  set v := normalizeSigned180 x with hv
  have hsum : u + v = 360 * (-(k₁ + k₂) : ℤ) := by push_cast; linarith
  have hk : (-(k₁ + k₂) : ℤ) = -1 ∨ (-(k₁ + k₂) : ℤ) = 0 ∨ (-(k₁ + k₂) : ℤ) = 1 := by
    set m : ℤ := -(k₁ + k₂)
    have h1 : (360 : ℚ) * m ≤ 360 := by linarith [hb₁.2, hb₂.2, hsum]
    have h2 : (-360 : ℚ) ≤ 360 * m := by linarith [hb₁.1, hb₂.1, hsum]
    have h1' : (m : ℚ) ≤ 1 := by linarith
    have h2' : (-1 : ℚ) ≤ m := by linarith
    have h1'' : m ≤ 1 := by exact_mod_cast h1'
    have h2'' : -1 ≤ m := by exact_mod_cast h2'
    omega
  rcases hk with h | h | h
  · rw [h] at hsum
    have hu' : u = -180 := by push_cast at hsum; linarith [hb₂.1]
    have hv' : v = -180 := by push_cast at hsum; linarith [hb₁.1]
    rw [hu', hv']
  · rw [h] at hsum
    have : u = -v := by push_cast at hsum; linarith
    rw [this, abs_neg]
  · rw [h] at hsum
    have hu' : u = 180 := by push_cast at hsum; linarith [hb₂.2]
    have hv' : v = 180 := by push_cast at hsum; linarith [hb₁.2]
    rw [hu', hv']

theorem sortPair_comm (l r : String) (h : l ≠ r) : sortPair l r = sortPair r l := by
  unfold sortPair
  rcases lt_trichotomy l.data r.data with h1 | h1 | h1
  · rw [if_neg (lt_asymm h1), if_pos h1]
  · exact absurd (String.ext h1) h
  · rw [if_pos h1, if_neg (lt_asymm h1)]

theorem sortPair_cases (l r : String) :
    (l = (sortPair l r).1 ∧ r = (sortPair l r).2) ∨
      (l = (sortPair l r).2 ∧ r = (sortPair l r).1) := by
  unfold sortPair
  split
  · right
    exact ⟨rfl, rfl⟩
  · left
    exact ⟨rfl, rfl⟩

theorem append_pipe_inj (xs : List Char) :
    ∀ (xs' ys ys' : List Char), '|' ∉ xs → '|' ∉ xs' →
      xs ++ '|' :: ys = xs' ++ '|' :: ys' → xs = xs' ∧ ys = ys' := by
  induction xs with
  | nil =>
    intro xs' ys ys' _ h2 h
    cases xs' with
    | nil => simpa using h
    | cons c' rest' =>
      simp only [List.nil_append, List.cons_append, List.cons.injEq] at h
      exact absurd (h.1 ▸ List.mem_cons_self c' rest') h2
  | cons c rest ih =>
    intro xs' ys ys' h1 h2 h
    cases xs' with
    | nil =>
      simp only [List.cons_append, List.nil_append, List.cons.injEq] at h
      exact absurd (h.1.symm ▸ List.mem_cons_self c rest) h1
    | cons c' rest' =>
      simp only [List.cons_append, List.cons.injEq] at h
      obtain ⟨hc, htail⟩ := h
      have hr := ih rest' ys ys' (fun hm => h1 (List.mem_cons_of_mem _ hm))
        (fun hm => h2 (List.mem_cons_of_mem _ hm)) htail
      exact ⟨by rw [hc, hr.1], hr.2⟩

theorem key_string_inj (a b t a' b' t' : String)
    (ha : noPipe a) (hb : noPipe b) (ha' : noPipe a') (hb' : noPipe b')
    (h : a ++ "|" ++ b ++ "|" ++ t = a' ++ "|" ++ b' ++ "|" ++ t') :
    a = a' ∧ b = b' ∧ t = t' := by
  have hd := congrArg String.data h
  simp only [String.data_append, List.append_assoc] at hd
  simp only [List.singleton_append] at hd
  obtain ⟨h1, h23⟩ := append_pipe_inj _ _ _ _ ha ha' hd
  obtain ⟨h2, h3⟩ := append_pipe_inj _ _ _ _ hb hb' h23
  exact ⟨String.ext h1, String.ext h2, String.ext h3⟩

theorem dedupeKey_ne_self (x : NatalAspect) (k : String × ℚ)
    (h : dedupeKey x = some k) : jsToLower x.p1 ≠ jsToLower x.p2 := by
  intro he
  unfold dedupeKey at h
  dsimp only at h
  rw [if_pos he] at h
  exact Option.noConfusion h

theorem dedupeKey_of_ne (x : NatalAspect) (h : jsToLower x.p1 ≠ jsToLower x.p2) :
    dedupeKey x =
      some ((sortPair (jsToLower x.p1) (jsToLower x.p2)).1 ++ "|" ++
        (sortPair (jsToLower x.p1) (jsToLower x.p2)).2 ++ "|" ++ jsToLower x.type,
        x.deg) := by
  unfold dedupeKey
  dsimp only
  rw [if_neg h]

theorem dedupeKey_eq_of_sameGroup (x y : NatalAspect) (h : sameGroup x y) :
    dedupeKey x = dedupeKey y := by
  obtain ⟨hpair, htype, hdeg⟩ := h
  unfold dedupeKey
  dsimp only
  rcases hpair with ⟨h1, h2⟩ | ⟨h1, h2⟩
  · rw [h1, h2, htype, hdeg]
  · rw [h1, h2, htype, hdeg]
    by_cases he : jsToLower y.p1 = jsToLower y.p2
    · rw [if_pos he, if_pos he.symm]
    · rw [if_neg (Ne.symm he), if_neg he, sortPair_comm _ _ (Ne.symm he)]

theorem sameGroup_of_dedupeKey_eq (x y : NatalAspect) (k : String × ℚ)
    (hx1 : noPipe (jsToLower x.p1)) (hx2 : noPipe (jsToLower x.p2))
    (hy1 : noPipe (jsToLower y.p1)) (hy2 : noPipe (jsToLower y.p2))
    (hkx : dedupeKey x = some k) (hky : dedupeKey y = some k) :
    sameGroup x y := by
  have hx := dedupeKey_ne_self x k hkx
  have hy := dedupeKey_ne_self y k hky
  rw [dedupeKey_of_ne x hx] at hkx
  rw [dedupeKey_of_ne y hy] at hky
  have hk := hkx.trans hky.symm
  simp only [Option.some.injEq, Prod.mk.injEq] at hk
  obtain ⟨hstr, hdeg⟩ := hk
  have hxc := sortPair_cases (jsToLower x.p1) (jsToLower x.p2)
  have hyc := sortPair_cases (jsToLower y.p1) (jsToLower y.p2)
  have hpx1 : noPipe (sortPair (jsToLower x.p1) (jsToLower x.p2)).1 := by
    rcases hxc with ⟨e1, _⟩ | ⟨_, e2⟩
    · exact e1 ▸ hx1
    · exact e2 ▸ hx2
  have hpx2 : noPipe (sortPair (jsToLower x.p1) (jsToLower x.p2)).2 := by
    rcases hxc with ⟨_, e2⟩ | ⟨e1, _⟩
    · exact e2 ▸ hx2
    · exact e1 ▸ hx1
  have hpy1 : noPipe (sortPair (jsToLower y.p1) (jsToLower y.p2)).1 := by
    rcases hyc with ⟨e1, _⟩ | ⟨_, e2⟩
    · exact e1 ▸ hy1
    · exact e2 ▸ hy2
  have hpy2 : noPipe (sortPair (jsToLower y.p1) (jsToLower y.p2)).2 := by
    rcases hyc with ⟨_, e2⟩ | ⟨e1, _⟩
    · exact e2 ▸ hy2
    · exact e1 ▸ hy1
  obtain ⟨ha, hb, ht⟩ := key_string_inj _ _ _ _ _ _ hpx1 hpx2 hpy1 hpy2 hstr
  refine ⟨?_, ht, hdeg⟩
  rcases hxc with ⟨e1, e2⟩ | ⟨e1, e2⟩ <;> rcases hyc with ⟨f1, f2⟩ | ⟨f1, f2⟩
  · left
    exact ⟨by rw [e1, ha, ← f1], by rw [e2, hb, ← f2]⟩
  · right
    exact ⟨by rw [e1, ha, ← f2], by rw [e2, hb, ← f1]⟩
  · right
    exact ⟨by rw [e1, hb, ← f2], by rw [e2, ha, ← f1]⟩
  · left
    exact ⟨by rw [e1, hb, ← f1], by rw [e2, ha, ← f2]⟩

theorem mapGet_none (m : List ((String × ℚ) × NatalAspect)) (k : String × ℚ)
    (h : mapGet m k = none) : ∀ e ∈ m, e.1 ≠ k := by
  intro e hm hk
  unfold mapGet at h
  rcases hf : m.find? (fun e => e.1 = k) with _ | f
  · have := List.find?_eq_none.mp hf e hm
    simp only [decide_eq_true_eq] at this
    exact this hk
  · rw [hf] at h
    exact Option.noConfusion h

theorem mapGet_some_mem (m : List ((String × ℚ) × NatalAspect)) (k : String × ℚ)
    (v : NatalAspect) (h : mapGet m k = some v) : (k, v) ∈ m := by
  unfold mapGet at h
  rcases hf : m.find? (fun e => e.1 = k) with _ | f
  · rw [hf] at h
    exact Option.noConfusion h
  · rw [hf] at h
    have hmem := List.mem_of_find?_eq_some hf
    have hkey := List.find?_some hf
    simp only [decide_eq_true_eq] at hkey
    simp only [Option.some.injEq] at h
    have : f = (k, v) := by
      rcases f with ⟨fk, fv⟩
      simp only [Prod.mk.injEq]
      exact ⟨hkey, h⟩
    exact this ▸ hmem

theorem mapSet_append (m : List ((String × ℚ) × NatalAspect)) (k : String × ℚ)
    (v : NatalAspect) (h : ∀ e ∈ m, e.1 ≠ k) : mapSet m k v = m ++ [(k, v)] := by
  induction m with
  | nil => rfl
  | cons f rest ih =>
    unfold mapSet
    rw [if_neg (h f (List.mem_cons_self f rest))]
    rw [ih fun e he => h e (List.mem_cons_of_mem f he)]
    rfl

theorem mem_mapSet_self (m : List ((String × ℚ) × NatalAspect)) (k : String × ℚ)
    (v : NatalAspect) : (k, v) ∈ mapSet m k v := by
  induction m with
  | nil => exact List.mem_singleton_self _
  | cons f rest ih =>
    unfold mapSet
    split
    · exact List.mem_cons_self _ _
    · exact List.mem_cons_of_mem f ih

theorem mem_mapSet_iff (m : List ((String × ℚ) × NatalAspect)) (k : String × ℚ)
    (v : NatalAspect) (e : (String × ℚ) × NatalAspect)
    (hnd : (m.map Prod.fst).Nodup) :
    e ∈ mapSet m k v ↔ e = (k, v) ∨ (e ∈ m ∧ e.1 ≠ k) := by
  induction m with
  | nil => simp [mapSet]
  | cons f rest ih =>
    simp only [List.map_cons, List.nodup_cons] at hnd
    obtain ⟨hf, hrest⟩ := hnd
    unfold mapSet
    split
    · rename_i hfk
      constructor
      · intro hm
        rcases List.mem_cons.mp hm with he | he
        · exact Or.inl he
        · refine Or.inr ⟨List.mem_cons_of_mem f he, ?_⟩
          intro hek
          refine hf ?_
          rw [hfk, ← hek]
          exact List.mem_map_of_mem Prod.fst he
      · intro hm
        rcases hm with he | ⟨hmem, hek⟩
        · exact he ▸ List.mem_cons_self _ _
        · rcases List.mem_cons.mp hmem with he' | he'
          · exact absurd (he' ▸ hfk) hek
          · exact List.mem_cons_of_mem _ he'
    · rename_i hfk
      constructor
      · intro hm
        rcases List.mem_cons.mp hm with he | he
        · exact Or.inr ⟨he ▸ List.mem_cons_self f rest, he ▸ hfk⟩
        · rcases (ih hrest).mp he with h' | ⟨h1, h2⟩
          · exact Or.inl h'
          · exact Or.inr ⟨List.mem_cons_of_mem f h1, h2⟩
      · intro hm
        rcases hm with he | ⟨hmem, hek⟩
        · exact List.mem_cons_of_mem f ((ih hrest).mpr (Or.inl he))
        · rcases List.mem_cons.mp hmem with he' | he'
          · exact he' ▸ List.mem_cons_self f _
          · exact List.mem_cons_of_mem f ((ih hrest).mpr (Or.inr ⟨he', hek⟩))

theorem map_fst_mapSet_mem (m : List ((String × ℚ) × NatalAspect)) (k : String × ℚ)
    (v : NatalAspect) (h : k ∈ m.map Prod.fst) :
    (mapSet m k v).map Prod.fst = m.map Prod.fst := by
  induction m with
  | nil => simp at h
  | cons f rest ih =>
    unfold mapSet
    split
    · rename_i hfk
      simp [hfk]
    · rename_i hfk
      have hk' : k ∈ rest.map Prod.fst := by
        rw [List.map_cons] at h
        rcases List.mem_cons.mp h with he | he
        · exact absurd he.symm hfk
        · exact he
      simp [ih hk']

theorem map_fst_mapSet_not_mem (m : List ((String × ℚ) × NatalAspect))
    (k : String × ℚ) (v : NatalAspect) (h : k ∉ m.map Prod.fst) :
    (mapSet m k v).map Prod.fst = m.map Prod.fst ++ [k] := by
  rw [mapSet_append]
  · simp
  · intro e he hek
    exact h (hek ▸ List.mem_map_of_mem Prod.fst he)

theorem dedupeStep_self (m : List ((String × ℚ) × NatalAspect)) (a : NatalAspect)
    (h : dedupeKey a = none) : dedupeStep m a = m := by
  unfold dedupeStep
  rw [h]

theorem dedupeStep_fresh (m : List ((String × ℚ) × NatalAspect)) (a : NatalAspect)
    (k : String × ℚ) (h : dedupeKey a = some k) (hg : mapGet m k = none) :
    dedupeStep m a = mapSet m k a := by
  unfold dedupeStep
  simp only [h, hg]

theorem dedupeStep_better (m : List ((String × ℚ) × NatalAspect)) (a : NatalAspect)
    (k : String × ℚ) (cur : NatalAspect) (h : dedupeKey a = some k)
    (hg : mapGet m k = some cur) (ho : a.orb < cur.orb) :
    dedupeStep m a = mapSet m k a := by
  unfold dedupeStep
  simp only [h, hg]
  rw [if_pos ho]

theorem dedupeStep_keep (m : List ((String × ℚ) × NatalAspect)) (a : NatalAspect)
    (k : String × ℚ) (cur : NatalAspect) (h : dedupeKey a = some k)
    (hg : mapGet m k = some cur) (ho : ¬ a.orb < cur.orb) :
    dedupeStep m a = m := by
  unfold dedupeStep
  simp only [h, hg]
  rw [if_neg ho]

theorem dedupeInv_step (pre : List NatalAspect)
    (m : List ((String × ℚ) × NatalAspect)) (a : NatalAspect)
    (h : DedupeInv pre m) : DedupeInv (pre ++ [a]) (dedupeStep m a) := by
  obtain ⟨h1, h2, h3⟩ := h
  rcases hk : dedupeKey a with _ | k
  · rw [dedupeStep_self m a hk]
    refine ⟨?_, ?_, h3⟩
    · intro e he
      obtain ⟨he1, he2, he3⟩ := h1 e he
      refine ⟨he1, List.mem_append_left _ he2, ?_⟩
      intro x hx hxk
      rcases List.mem_append.mp hx with hx' | hx'
      · exact he3 x hx' hxk
      · rw [List.mem_singleton.mp hx'] at hxk
        rw [hk] at hxk
        exact Option.noConfusion hxk
    · intro x hx k' hk'
      rcases List.mem_append.mp hx with hx' | hx'
      · exact h2 x hx' k' hk'
      · rw [List.mem_singleton.mp hx'] at hk'
        rw [hk] at hk'
        exact Option.noConfusion hk'
  · rcases hg : mapGet m k with _ | cur
    · have hfresh : ∀ e ∈ m, e.1 ≠ k := mapGet_none m k hg
      rw [dedupeStep_fresh m a k hk hg, mapSet_append m k a hfresh]
      refine ⟨?_, ?_, ?_⟩
      · intro e he
        rcases List.mem_append.mp he with he' | he'
        · obtain ⟨he1, he2, he3⟩ := h1 e he'
          refine ⟨he1, List.mem_append_left _ he2, ?_⟩
          intro x hx hxk
          rcases List.mem_append.mp hx with hx' | hx'
          · exact he3 x hx' hxk
          · rw [List.mem_singleton.mp hx'] at hxk
            rw [hk] at hxk
            exact absurd (Option.some.inj hxk).symm (hfresh e he')
        · rw [List.mem_singleton.mp he']
          refine ⟨hk, List.mem_append_right _ (List.mem_singleton_self a), ?_⟩
          intro x hx hxk
          rcases List.mem_append.mp hx with hx' | hx'
          · obtain ⟨e', he', hek⟩ := h2 x hx' k hxk
            exact absurd hek (hfresh e' he')
          · rw [List.mem_singleton.mp hx']
      · intro x hx k' hk'
        rcases List.mem_append.mp hx with hx' | hx'
        · obtain ⟨e, he, hek⟩ := h2 x hx' k' hk'
          exact ⟨e, List.mem_append_left _ he, hek⟩
        · rw [List.mem_singleton.mp hx'] at hk'
          rw [hk] at hk'
          exact ⟨(k, a), List.mem_append_right _ (List.mem_singleton_self _),
            Option.some.inj hk'⟩
      · rw [List.map_append]
        simp only [List.map_cons, List.map_nil]
        rw [List.nodup_append]
        refine ⟨h3, List.nodup_singleton _, ?_⟩
        intro y hy hy2
        rw [List.mem_singleton] at hy2
        obtain ⟨e, he, hek⟩ := List.mem_map.mp hy
        exact hfresh e he (hek.trans hy2)
    · have hcur : (k, cur) ∈ m := mapGet_some_mem m k cur hg
      obtain ⟨hc1, hc2, hc3⟩ := h1 (k, cur) hcur
      by_cases horb : a.orb < cur.orb
      · rw [dedupeStep_better m a k cur hk hg horb]
        refine ⟨?_, ?_, ?_⟩
        · intro e he
          rcases (mem_mapSet_iff m k a e h3).mp he with he' | ⟨hmem, hek⟩
          · subst he'
            refine ⟨hk, List.mem_append_right _ (List.mem_singleton_self a), ?_⟩
            intro x hx hxk
            rcases List.mem_append.mp hx with hx' | hx'
            · exact le_of_lt (lt_of_lt_of_le horb (hc3 x hx' hxk))
            · rw [List.mem_singleton.mp hx']
          · obtain ⟨he1, he2, he3⟩ := h1 e hmem
            refine ⟨he1, List.mem_append_left _ he2, ?_⟩
            intro x hx hxk
            rcases List.mem_append.mp hx with hx' | hx'
            · exact he3 x hx' hxk
            · rw [List.mem_singleton.mp hx'] at hxk
              rw [hk] at hxk
              exact absurd (Option.some.inj hxk).symm hek
        · intro x hx k' hk'
          rcases List.mem_append.mp hx with hx' | hx'
          · obtain ⟨e, he, hek⟩ := h2 x hx' k' hk'
            by_cases hkk : k' = k
            · exact ⟨(k, a), mem_mapSet_self m k a, hkk.symm⟩
            · exact ⟨e, (mem_mapSet_iff m k a e h3).mpr
                (Or.inr ⟨he, hek.symm ▸ hkk⟩), hek⟩
          · rw [List.mem_singleton.mp hx'] at hk'
            rw [hk] at hk'
            exact ⟨(k, a), mem_mapSet_self m k a, Option.some.inj hk'⟩
        · rw [map_fst_mapSet_mem m k a (List.mem_map_of_mem Prod.fst hcur)]
          exact h3
      · rw [dedupeStep_keep m a k cur hk hg horb]
        refine ⟨?_, ?_, h3⟩
        · intro e he
          obtain ⟨he1, he2, he3⟩ := h1 e he
          refine ⟨he1, List.mem_append_left _ he2, ?_⟩
          intro x hx hxk
          rcases List.mem_append.mp hx with hx' | hx'
          · exact he3 x hx' hxk
          · rw [List.mem_singleton.mp hx'] at hxk
            rw [hk] at hxk
            have hek : e.1 = k := (Option.some.inj hxk).symm
            have hecur : e = (k, cur) :=
              List.inj_on_of_nodup_map h3 he hcur (by rw [hek])
            rw [hecur, List.mem_singleton.mp hx']
            exact le_of_not_lt horb
        · intro x hx k' hk'
          rcases List.mem_append.mp hx with hx' | hx'
          · exact h2 x hx' k' hk'
          · rw [List.mem_singleton.mp hx'] at hk'
            rw [hk] at hk'
            exact ⟨(k, cur), hcur, (Option.some.inj hk')⟩

theorem dedupeInv_foldl (aspects : List NatalAspect) :
    ∀ (pre : List NatalAspect) (m : List ((String × ℚ) × NatalAspect)),
      DedupeInv pre m → DedupeInv (pre ++ aspects) (aspects.foldl dedupeStep m) := by
  induction aspects with
  | nil =>
    intro pre m h
    simpa using h
  | cons a rest ih =>
    intro pre m h
    have hstep := dedupeInv_step pre m a h
    have := ih (pre ++ [a]) (dedupeStep m a) hstep
    simpa [List.append_assoc] using this

theorem getField_cons_eq (k : String) (v : Json) (fields : List (String × Json)) :
    Json.getField (Json.obj ((k, v) :: fields)) k = some v := by
  simp only [Json.getField]
  rw [List.find?_cons_of_pos]
  simp

theorem getField_cons_ne (k k' : String) (v : Json) (fields : List (String × Json))
    (h : ¬ k' = k) :
    Json.getField (Json.obj ((k', v) :: fields)) k = Json.getField (Json.obj fields) k := by
  simp only [Json.getField]
  rw [List.find?_cons_of_neg]
  simp [h]

theorem readStringArray_map (l : List String) :
    readStringArray (Json.arr (l.map Json.str)) = some l := by
  induction l with
  | nil => rfl
  | cons s rest ih =>
    simp only [readStringArray, List.map_cons, List.foldr_cons] at ih ⊢
    rw [ih]

theorem getField_payloadToJson (p : NatalRequestPayload) (k : String)
    (hk : ¬ "name" = k) :
    Json.getField (payloadToJson p) k = Json.getField (Json.obj (payloadFields p)) k := by
  unfold payloadToJson
  cases p.name with
  | none => simp only [List.nil_append]
  | some n =>
    simp only [List.cons_append, List.nil_append]
    exact getField_cons_ne k "name" _ _ hk

theorem getField_obj_nil (k : String) : Json.getField (Json.obj []) k = none := rfl

theorem getOptName_payloadToJson (p : NatalRequestPayload)
    (h : p.name.all (fun n => jsTrim n = n ∧ n.length ≤ 120) = true) :
    getOptName (payloadToJson p) = some p.name := by
  unfold getOptName payloadToJson
  cases hn : p.name with
  | none =>
    simp only [List.nil_append]
    have hf : Json.getField (Json.obj (payloadFields p)) "name" = none := by
      simp [payloadFields, getField_cons_ne]
      simp [Json.getField]
    rw [hf]
  | some n =>
    rw [hn] at h
    simp only [Option.all, decide_eq_true_eq] at h
    simp only [List.cons_append, List.nil_append, getField_cons_eq]
    rw [h.1, if_pos h.2]

theorem payloadFields_lookups (p : NatalRequestPayload) :
    Json.getField (Json.obj (payloadFields p)) "year" = some (Json.num p.year) ∧
    Json.getField (Json.obj (payloadFields p)) "month" = some (Json.num p.month) ∧
    Json.getField (Json.obj (payloadFields p)) "day" = some (Json.num p.day) ∧
    Json.getField (Json.obj (payloadFields p)) "hour" = some (Json.num p.hour) ∧
    Json.getField (Json.obj (payloadFields p)) "minute" = some (Json.num p.minute) ∧
    Json.getField (Json.obj (payloadFields p)) "city" = some (Json.str p.city) ∧
    Json.getField (Json.obj (payloadFields p)) "lat" = some (Json.num p.lat) ∧
    Json.getField (Json.obj (payloadFields p)) "lng" = some (Json.num p.lng) ∧
    Json.getField (Json.obj (payloadFields p)) "tz_str" = some (Json.str p.tz_str) ∧
    Json.getField (Json.obj (payloadFields p)) "house_system" =
      some (Json.str p.house_system) ∧
    Json.getField (Json.obj (payloadFields p)) "zodiac_type" =
      some (Json.str p.zodiac_type) ∧
    Json.getField (Json.obj (payloadFields p)) "interpretation" =
      some (Json.obj ([("enable", Json.bool p.interpretation.enable),
        ("style", Json.str p.interpretation.style)] ++
        (match p.interpretation.language with
         | some l => [("language", Json.str l)]
         | none => []))) ∧
    Json.getField (Json.obj (payloadFields p)) "include_features" =
      some (Json.arr (p.include_features.map Json.str)) ∧
    Json.getField (Json.obj (payloadFields p)) "include_speed" =
      some (Json.bool p.include_speed) ∧
    Json.getField (Json.obj (payloadFields p)) "include_dominants" =
      some (Json.bool p.include_dominants) := by
  unfold payloadFields
  refine ⟨?_, ?_, ?_, ?_, ?_, ?_, ?_, ?_, ?_, ?_, ?_, ?_, ?_, ?_, ?_⟩
  · rw [getField_cons_eq]
  · rw [getField_cons_ne _ _ _ _ (by decide), getField_cons_eq]
  · rw [getField_cons_ne _ _ _ _ (by decide), getField_cons_ne _ _ _ _ (by decide), getField_cons_eq]
  · rw [getField_cons_ne _ _ _ _ (by decide), getField_cons_ne _ _ _ _ (by decide), getField_cons_ne _ _ _ _ (by decide), getField_cons_eq]
  · rw [getField_cons_ne _ _ _ _ (by decide), getField_cons_ne _ _ _ _ (by decide), getField_cons_ne _ _ _ _ (by decide), getField_cons_ne _ _ _ _ (by decide), getField_cons_eq]
  · rw [getField_cons_ne _ _ _ _ (by decide), getField_cons_ne _ _ _ _ (by decide), getField_cons_ne _ _ _ _ (by decide), getField_cons_ne _ _ _ _ (by decide), getField_cons_ne _ _ _ _ (by decide), getField_cons_eq]
  · rw [getField_cons_ne _ _ _ _ (by decide), getField_cons_ne _ _ _ _ (by decide), getField_cons_ne _ _ _ _ (by decide), getField_cons_ne _ _ _ _ (by decide), getField_cons_ne _ _ _ _ (by decide), getField_cons_ne _ _ _ _ (by decide), getField_cons_eq]
  · rw [getField_cons_ne _ _ _ _ (by decide), getField_cons_ne _ _ _ _ (by decide), getField_cons_ne _ _ _ _ (by decide), getField_cons_ne _ _ _ _ (by decide), getField_cons_ne _ _ _ _ (by decide), getField_cons_ne _ _ _ _ (by decide), getField_cons_ne _ _ _ _ (by decide), getField_cons_eq]
  · rw [getField_cons_ne _ _ _ _ (by decide), getField_cons_ne _ _ _ _ (by decide), getField_cons_ne _ _ _ _ (by decide), getField_cons_ne _ _ _ _ (by decide), getField_cons_ne _ _ _ _ (by decide), getField_cons_ne _ _ _ _ (by decide), getField_cons_ne _ _ _ _ (by decide), getField_cons_ne _ _ _ _ (by decide), getField_cons_eq]
  · rw [getField_cons_ne _ _ _ _ (by decide), getField_cons_ne _ _ _ _ (by decide), getField_cons_ne _ _ _ _ (by decide), getField_cons_ne _ _ _ _ (by decide), getField_cons_ne _ _ _ _ (by decide), getField_cons_ne _ _ _ _ (by decide), getField_cons_ne _ _ _ _ (by decide), getField_cons_ne _ _ _ _ (by decide), getField_cons_ne _ _ _ _ (by decide), getField_cons_eq]
  · rw [getField_cons_ne _ _ _ _ (by decide), getField_cons_ne _ _ _ _ (by decide), getField_cons_ne _ _ _ _ (by decide), getField_cons_ne _ _ _ _ (by decide), getField_cons_ne _ _ _ _ (by decide), getField_cons_ne _ _ _ _ (by decide), getField_cons_ne _ _ _ _ (by decide), getField_cons_ne _ _ _ _ (by decide), getField_cons_ne _ _ _ _ (by decide), getField_cons_ne _ _ _ _ (by decide), getField_cons_eq]
  · rw [getField_cons_ne _ _ _ _ (by decide), getField_cons_ne _ _ _ _ (by decide), getField_cons_ne _ _ _ _ (by decide), getField_cons_ne _ _ _ _ (by decide), getField_cons_ne _ _ _ _ (by decide), getField_cons_ne _ _ _ _ (by decide), getField_cons_ne _ _ _ _ (by decide), getField_cons_ne _ _ _ _ (by decide), getField_cons_ne _ _ _ _ (by decide), getField_cons_ne _ _ _ _ (by decide), getField_cons_ne _ _ _ _ (by decide), getField_cons_eq]
  · rw [getField_cons_ne _ _ _ _ (by decide), getField_cons_ne _ _ _ _ (by decide), getField_cons_ne _ _ _ _ (by decide), getField_cons_ne _ _ _ _ (by decide), getField_cons_ne _ _ _ _ (by decide), getField_cons_ne _ _ _ _ (by decide), getField_cons_ne _ _ _ _ (by decide), getField_cons_ne _ _ _ _ (by decide), getField_cons_ne _ _ _ _ (by decide), getField_cons_ne _ _ _ _ (by decide), getField_cons_ne _ _ _ _ (by decide), getField_cons_ne _ _ _ _ (by decide), getField_cons_eq]
  · rw [getField_cons_ne _ _ _ _ (by decide), getField_cons_ne _ _ _ _ (by decide), getField_cons_ne _ _ _ _ (by decide), getField_cons_ne _ _ _ _ (by decide), getField_cons_ne _ _ _ _ (by decide), getField_cons_ne _ _ _ _ (by decide), getField_cons_ne _ _ _ _ (by decide), getField_cons_ne _ _ _ _ (by decide), getField_cons_ne _ _ _ _ (by decide), getField_cons_ne _ _ _ _ (by decide), getField_cons_ne _ _ _ _ (by decide), getField_cons_ne _ _ _ _ (by decide), getField_cons_ne _ _ _ _ (by decide), getField_cons_eq]
  · rw [getField_cons_ne _ _ _ _ (by decide), getField_cons_ne _ _ _ _ (by decide), getField_cons_ne _ _ _ _ (by decide), getField_cons_ne _ _ _ _ (by decide), getField_cons_ne _ _ _ _ (by decide), getField_cons_ne _ _ _ _ (by decide), getField_cons_ne _ _ _ _ (by decide), getField_cons_ne _ _ _ _ (by decide), getField_cons_ne _ _ _ _ (by decide), getField_cons_ne _ _ _ _ (by decide), getField_cons_ne _ _ _ _ (by decide), getField_cons_ne _ _ _ _ (by decide), getField_cons_ne _ _ _ _ (by decide), getField_cons_ne _ _ _ _ (by decide), getField_cons_eq]

theorem parsePayload_roundtrip (p : NatalRequestPayload) (hv : ValidPayload p) :
    parsePayloadSchema (payloadToJson p) = some p := by
  obtain ⟨hname, hyd, hy1, hy2, hmd, hm1, hm2, hdd, hd1, hd2, hhd, hh1, hh2,
    hmind, hmin1, hmin2, hct, hcl, hlat1, hlat2, hlng1, hlng2, htzt, htzl,
    h1, h2, h3, h4, hlang, hfall, hflen, h5, h6⟩ := hv
  obtain ⟨f1, f2, f3, f4, f5, f6, f7, f8, f9, f10, f11, f12, f13, f14, f15⟩ :=
    payloadFields_lookups p
  have g : ∀ k, ¬ ("name" : String) = k →
      Json.getField (payloadToJson p) k = Json.getField (Json.obj (payloadFields p)) k :=
    fun k hk => getField_payloadToJson p k hk
  unfold parsePayloadSchema
  rw [getOptName_payloadToJson p hname,
    show getIntIn (payloadToJson p) "year" 1800 2100 = some p.year by
      unfold getIntIn
      rw [g "year" (by decide), f1]
      dsimp only
      rw [if_pos ⟨hyd, hy1, hy2⟩],
    show getIntIn (payloadToJson p) "month" 1 12 = some p.month by
      unfold getIntIn
      rw [g "month" (by decide), f2]
      dsimp only
      rw [if_pos ⟨hmd, hm1, hm2⟩],
    show getIntIn (payloadToJson p) "day" 1 31 = some p.day by
      unfold getIntIn
      rw [g "day" (by decide), f3]
      dsimp only
      rw [if_pos ⟨hdd, hd1, hd2⟩],
    show getIntIn (payloadToJson p) "hour" 0 23 = some p.hour by
      unfold getIntIn
      rw [g "hour" (by decide), f4]
      dsimp only
      rw [if_pos ⟨hhd, hh1, hh2⟩],
    show getIntIn (payloadToJson p) "minute" 0 59 = some p.minute by
      unfold getIntIn
      rw [g "minute" (by decide), f5]
      dsimp only
      rw [if_pos ⟨hmind, hmin1, hmin2⟩],
    show getTrimStr (payloadToJson p) "city" = some p.city by
      unfold getTrimStr
      rw [g "city" (by decide), f6]
      dsimp only
      rw [hct, if_pos hcl],
    show getNumIn (payloadToJson p) "lat" (-90) 90 = some p.lat by
      unfold getNumIn
      rw [g "lat" (by decide), f7]
      dsimp only
      rw [if_pos ⟨hlat1, hlat2⟩],
    show getNumIn (payloadToJson p) "lng" (-180) 180 = some p.lng by
      unfold getNumIn
      rw [g "lng" (by decide), f8]
      dsimp only
      rw [if_pos ⟨hlng1, hlng2⟩],
    show getTrimStr (payloadToJson p) "tz_str" = some p.tz_str by
      unfold getTrimStr
      rw [g "tz_str" (by decide), f9]
      dsimp only
      rw [htzt, if_pos htzl],
    show getLit (payloadToJson p) "house_system" "placidus" = some p.house_system by
      unfold getLit
      rw [g "house_system" (by decide), f10]
      dsimp only
      rw [if_pos h1],
    show getLit (payloadToJson p) "zodiac_type" "tropical" = some p.zodiac_type by
      unfold getLit
      rw [g "zodiac_type" (by decide), f11]
      dsimp only
      rw [if_pos h2],
    show getInterp (payloadToJson p) = some p.interpretation by
      unfold getInterp
      rw [g "interpretation" (by decide), f12]
      dsimp only
      cases hl : p.interpretation.language with
      | none =>
        simp only [List.append_nil]
        rw [getField_cons_eq, getField_cons_ne "style" "enable" _ _ (by decide),
          getField_cons_eq,
          show Json.getField (Json.obj [("enable", Json.bool p.interpretation.enable),
              ("style", Json.str p.interpretation.style)]) "language" = none by
            rw [getField_cons_ne _ _ _ _ (by decide),
              getField_cons_ne _ _ _ _ (by decide), getField_obj_nil]]
        dsimp only
        rw [if_pos ⟨h3, h4⟩, ← hl]
      | some l =>
        have hlen : l = "en" := by
          rcases hlang with he | he
          · rw [hl] at he
            exact Option.noConfusion he
          · rw [hl] at he
            exact Option.some.inj he
        simp only [List.cons_append, List.nil_append]
        rw [getField_cons_eq, getField_cons_ne "style" "enable" _ _ (by decide),
          getField_cons_eq, getField_cons_ne _ _ _ _ (by decide),
          getField_cons_ne _ _ _ _ (by decide), getField_cons_eq]
        dsimp only
        rw [if_pos ⟨h3, h4, hlen⟩, ← hl],
    show getFeatures (payloadToJson p) = some p.include_features by
      unfold getFeatures
      rw [g "include_features" (by decide), f13]
      dsimp only
      rw [readStringArray_map]
      dsimp only
      rw [if_pos ⟨hfall, hflen⟩],
    show getTrue (payloadToJson p) "include_speed" = some p.include_speed by
      unfold getTrue
      rw [g "include_speed" (by decide), f14, h5]
      rfl,
    show getTrue (payloadToJson p) "include_dominants" = some p.include_dominants by
      unfold getTrue
      rw [g "include_dominants" (by decide), f15, h6]
      rfl]
  simp only [Option.some_bind]

theorem parseEnvelope_roundtrip (e : ReportEnvelope) (hv : ValidPayload e.payload)
    (hc : 0 < e.createdAt) :
    parseEnvelopeSchema (envelopeToJson e) = some e := by
  unfold parseEnvelopeSchema envelopeToJson
  rw [getField_cons_eq,
    getField_cons_ne "createdAt" "payload" _ _ (by decide), getField_cons_eq]
  simp only [Option.some_bind]
  rw [parsePayload_roundtrip e.payload hv]
  simp only [Option.some_bind]
  rw [if_pos ⟨Rat.den_intCast e.createdAt, by exact_mod_cast hc⟩]
  simp only [Rat.num_intCast, Option.some_bind]

theorem getAspectStrength_label_cases (orb : ℚ) :
    ((getAspectStrength orb).label = "Very strong" ↔ orb ≤ 3 / 2) ∧
    ((getAspectStrength orb).label = "Strong" ↔ 3 / 2 < orb ∧ orb ≤ 3) ∧
    ((getAspectStrength orb).label = "Moderate" ↔ 3 < orb ∧ orb ≤ 5) ∧
    ((getAspectStrength orb).label = "Subtle" ↔ 5 < orb ∧ orb ≤ 7) ∧
    ((getAspectStrength orb).label = "Faint" ↔ 7 < orb) := by
  unfold getAspectStrength
  dsimp only
  split_ifs with h1 h2 h3 h4 <;>
    refine ⟨?_, ?_, ?_, ?_, ?_⟩ <;> simp <;>
    first
      | linarith
      | (constructor <;> linarith)
      | (intro h; linarith)

end OpenChart

namespace OpenChart

/-- C1 (amended): `normalizeSigned180` maps every rational angle into the
closed interval [-180, 180] and preserves the angle modulo 360. -/
theorem normalizeSigned180_spec (a : ℚ) :
    -180 ≤ normalizeSigned180 a ∧ normalizeSigned180 a ≤ 180 ∧
      ∃ k : ℤ, normalizeSigned180 a = a - 360 * k :=
  ⟨(normalizeSigned180_bounds a).1, (normalizeSigned180_bounds a).2,
    normalizeSigned180_congruent a⟩

/-- C1 counterexample: at input -180 the function returns -180, which is not
in the half-open interval (-180, 180] asserted by the claim. -/
theorem normalizeSigned180_at_neg180 :
    normalizeSigned180 (-180) = -180 ∧ ¬ (-180 < normalizeSigned180 (-180)) := by
  have : normalizeSigned180 (-180) = -180 := by
    unfold normalizeSigned180 jsRem ratTrunc
    have hc : ⌈(-(1 / 2) : ℚ)⌉ = 0 := by norm_num
    norm_num [hc]
  exact ⟨this, by rw [this]; exact lt_irrefl _⟩

/-- C5: `aspectOrbFromDelta` is invariant under negating the delta and always
returns a value in [0, 180]. -/
theorem aspectOrbFromDelta_spec (delta aspectDeg : ℚ) :
    aspectOrbFromDelta (-delta) aspectDeg = aspectOrbFromDelta delta aspectDeg ∧
      0 ≤ aspectOrbFromDelta delta aspectDeg ∧ aspectOrbFromDelta delta aspectDeg ≤ 180 := by
  have habs : ∀ x : ℚ, |normalizeSigned180 x| ≤ 180 := by
    intro x
    have h := normalizeSigned180_bounds x
    rw [abs_le]
    exact ⟨by linarith [h.1], h.2⟩
  refine ⟨?_, ?_, ?_⟩
  · unfold aspectOrbFromDelta
    split
    · rename_i h
      subst h
      exact abs_normalizeSigned180_neg delta
    · have e1 : -delta - aspectDeg = -(delta + aspectDeg) := by ring
      have e2 : -delta + aspectDeg = -(delta - aspectDeg) := by ring
      rw [e1, e2, abs_normalizeSigned180_neg, abs_normalizeSigned180_neg, min_comm]
  · unfold aspectOrbFromDelta
    split
    · exact abs_nonneg _
    · exact le_min (abs_nonneg _) (abs_nonneg _)
  · unfold aspectOrbFromDelta
    split
    · exact habs _
    · exact min_le_of_left_le (habs _)

/-- C6: `getAspectStrength` returns score `round(100 - orb*10)` clamped to
[5, 100] and classifies the label exactly by the orb thresholds
(≤1.5 Very strong, ≤3 Strong, ≤5 Moderate, ≤7 Subtle, else Faint), with the
boundary values orb = 0, 1.5, 1.51, 7, 7.01, 20 behaving as claimed. -/
theorem getAspectStrength_spec :
    (∀ orb : ℚ,
      (getAspectStrength orb).score = max 5 (min 100 (jsRound (100 - orb * 10))) ∧
      ((getAspectStrength orb).label = "Very strong" ↔ orb ≤ 3 / 2) ∧
      ((getAspectStrength orb).label = "Strong" ↔ 3 / 2 < orb ∧ orb ≤ 3) ∧
      ((getAspectStrength orb).label = "Moderate" ↔ 3 < orb ∧ orb ≤ 5) ∧
      ((getAspectStrength orb).label = "Subtle" ↔ 5 < orb ∧ orb ≤ 7) ∧
      ((getAspectStrength orb).label = "Faint" ↔ 7 < orb)) ∧
    (getAspectStrength 0).score = 100 ∧
    (getAspectStrength (3 / 2)).label = "Very strong" ∧
    (getAspectStrength (151 / 100)).label = "Strong" ∧
    (getAspectStrength 7).label = "Subtle" ∧
    (getAspectStrength (701 / 100)).label = "Faint" ∧
    (getAspectStrength 20).score = 5 := by
  refine ⟨fun orb => ⟨?_, getAspectStrength_label_cases orb⟩, ?_, ?_, ?_, ?_, ?_, ?_⟩
  · unfold getAspectStrength
    dsimp only
    split_ifs <;> rfl
  all_goals norm_num [getAspectStrength, jsRound]

/-- C9: `getSignedSpeed` returns `undefined` when the upstream speed is
absent, and otherwise discards the upstream sign, returning `-|speed|` when
the retrograde flag is set and `+|speed|` (non-negative, i.e. direct motion)
when it is not. -/
theorem getSignedSpeed_spec (p : NatalPlanet) :
    (p.speed = none → getSignedSpeed p = none) ∧
    (∀ s : ℚ, p.speed = some s →
      getSignedSpeed p = some (if p.retrograde then -|s| else |s|) ∧
      (p.retrograde = false → getSignedSpeed p = some |s| ∧ 0 ≤ |s|)) := by
  constructor
  · intro h
    unfold getSignedSpeed
    rw [h]
  · intro s hs
    unfold getSignedSpeed
    rw [hs]
    refine ⟨rfl, fun hr => ?_⟩
    rw [hr]
    exact ⟨by simp, abs_nonneg s⟩

/-- C9 witness: a planet reported with upstream speed -1 but
`retrograde = false` is treated as moving direct with speed +1. -/
theorem getSignedSpeed_spec_witness :
    getSignedSpeed ⟨"mars", 0, some (-1), false⟩ = some |(-1 : ℚ)| ∧ |(-1 : ℚ)| = 1 :=
  ⟨(((getSignedSpeed_spec ⟨"mars", 0, some (-1), false⟩).2 (-1) rfl).2 rfl).1, by norm_num⟩

/-- C2: `getAspectPhase` returns Unknown when either endpoint or its speed is
missing; otherwise it compares the current orb with the orb recomputed after
advancing each endpoint's longitude by its own speed times 1/24 day, returning
Unknown when the two orbs differ by less than 0.0005°, Applying when the
projected orb is smaller, and Separating when it is larger; in particular
endpoint 1 at 10° with speed +1°/day against endpoint 2 at 100° with speed
+13°/day under aspect degree 90 yields Separating. -/
theorem getAspectPhase_spec (lon1 lon2 s1 s2 deg : ℚ) :
    getAspectPhase none (some ⟨lon2, some s2⟩) deg = "Unknown" ∧
    getAspectPhase (some ⟨lon1, some s1⟩) none deg = "Unknown" ∧
    getAspectPhase (some ⟨lon1, none⟩) (some ⟨lon2, some s2⟩) deg = "Unknown" ∧
    getAspectPhase (some ⟨lon1, some s1⟩) (some ⟨lon2, none⟩) deg = "Unknown" ∧
    ((|aspectOrbFromDelta
          (normalizeSigned180 ((lon2 + s2 * (1 / 24)) - (lon1 + s1 * (1 / 24)))) deg -
        aspectOrbFromDelta (normalizeSigned180 (lon2 - lon1)) deg| < 5 / 10000 →
      getAspectPhase (some ⟨lon1, some s1⟩) (some ⟨lon2, some s2⟩) deg = "Unknown") ∧
     (5 / 10000 ≤ |aspectOrbFromDelta
          (normalizeSigned180 ((lon2 + s2 * (1 / 24)) - (lon1 + s1 * (1 / 24)))) deg -
        aspectOrbFromDelta (normalizeSigned180 (lon2 - lon1)) deg| →
      aspectOrbFromDelta
          (normalizeSigned180 ((lon2 + s2 * (1 / 24)) - (lon1 + s1 * (1 / 24)))) deg <
        aspectOrbFromDelta (normalizeSigned180 (lon2 - lon1)) deg →
      getAspectPhase (some ⟨lon1, some s1⟩) (some ⟨lon2, some s2⟩) deg = "Applying") ∧
     (5 / 10000 ≤ |aspectOrbFromDelta
          (normalizeSigned180 ((lon2 + s2 * (1 / 24)) - (lon1 + s1 * (1 / 24)))) deg -
        aspectOrbFromDelta (normalizeSigned180 (lon2 - lon1)) deg| →
      aspectOrbFromDelta (normalizeSigned180 (lon2 - lon1)) deg <
        aspectOrbFromDelta
          (normalizeSigned180 ((lon2 + s2 * (1 / 24)) - (lon1 + s1 * (1 / 24)))) deg →
      getAspectPhase (some ⟨lon1, some s1⟩) (some ⟨lon2, some s2⟩) deg = "Separating")) ∧
    getAspectPhase (some ⟨10, some 1⟩) (some ⟨100, some 13⟩) 90 = "Separating" := by
  refine ⟨rfl, rfl, rfl, rfl, ⟨?_, ?_, ?_⟩, ?_⟩
  · intro h
    unfold getAspectPhase
    dsimp only
    rw [if_pos h]
  · intro h hlt
    unfold getAspectPhase
    dsimp only
    rw [if_neg (not_lt.mpr h), if_pos hlt]
  · intro h hgt
    unfold getAspectPhase
    dsimp only
    rw [if_neg (not_lt.mpr h), if_neg (not_lt.mpr (le_of_lt hgt))]
  · unfold getAspectPhase aspectOrbFromDelta normalizeSigned180 jsRem ratTrunc
    norm_num [inf_eq_min, min_def, abs_of_nonneg]

/-- C2 witness: endpoint 1 at 0° with speed 0 and endpoint 2 at 91° with
speed -1°/day under aspect degree 90: the projected orb 23/24 is smaller
than the current orb 1, so the phase is Applying. -/
theorem getAspectPhase_spec_witness :
    getAspectPhase (some ⟨0, some 0⟩) (some ⟨91, some (-1)⟩) 90 = "Applying" :=
  (getAspectPhase_spec 0 91 0 (-1) 90).2.2.2.2.1.2.1
    (by
      unfold aspectOrbFromDelta normalizeSigned180 jsRem ratTrunc
      norm_num [inf_eq_min, min_def, abs_of_nonneg])
    (by
      unfold aspectOrbFromDelta normalizeSigned180 jsRem ratTrunc
      norm_num [inf_eq_min, min_def, abs_of_nonneg])

/-- C3: `deriveAngleAspects` emits, for each planet and each canonical
aspect of the `MAJOR_ANGLE_ASPECTS` table, exactly one record exactly when
the circular distance from the reference longitude to the planet deviates
from the aspect's exact degree by at most its maximum orb, with the orb
rounded to two decimals and flagged major, and returns them sorted
ascending by orb; in particular a planet at 90° from reference 0° yields
exactly the square with orb 0, a planet at 95.9° the square with orb 5.9,
and a planet at 96.4° nothing. -/
theorem deriveAngleAspects_spec :
    (∀ (angleKey : String) (pos : ℚ) (planets : List NatalPlanet),
      (deriveAngleAspects angleKey (some pos) planets).Perm
        (planets.flatMap fun planet =>
          MAJOR_ANGLE_ASPECTS.filterMap fun candidate =>
            if |normalizedDistance pos planet.abs_pos - candidate.deg| ≤ candidate.maxOrb then
              some ⟨angleKey, planet.id, candidate.type,
                round2 |normalizedDistance pos planet.abs_pos - candidate.deg|,
                candidate.deg, true⟩
            else none) ∧
      (deriveAngleAspects angleKey (some pos) planets).Sorted fun a b => a.orb ≤ b.orb) ∧
    deriveAngleAspects "asc" (some 0) [⟨"p", 90, none, false⟩] =
      [⟨"asc", "p", "square", 0, 90, true⟩] ∧
    deriveAngleAspects "asc" (some 0) [⟨"p", 959 / 10, none, false⟩] =
      [⟨"asc", "p", "square", 59 / 10, 90, true⟩] ∧
    deriveAngleAspects "asc" (some 0) [⟨"p", 964 / 10, none, false⟩] = [] := by
  refine ⟨fun angleKey pos planets => ⟨?_, ?_⟩, ?_, ?_, ?_⟩
  · exact List.mergeSort_perm _ _
  · have h := @List.sorted_mergeSort NatalAspect
      (fun a b : NatalAspect => decide (a.orb ≤ b.orb))
      (fun a b c hab hbc => by
        simp only [decide_eq_true_eq] at *
        exact le_trans hab hbc)
      (fun a b => by
        simp only [Bool.or_eq_true, decide_eq_true_eq]
        exact le_total a.orb b.orb)
      (planets.flatMap fun planet =>
        MAJOR_ANGLE_ASPECTS.filterMap fun candidate =>
          let distance := normalizedDistance pos planet.abs_pos
          let orb := |distance - candidate.deg|
          if orb ≤ candidate.maxOrb then
            some ⟨angleKey, planet.id, candidate.type, round2 orb, candidate.deg, true⟩
          else none)
    unfold deriveAngleAspects sortAspects
    dsimp only
    exact List.Pairwise.imp (fun hab => by simpa using hab) h
  · have hd : normalizedDistance 0 90 = 90 := by
      unfold normalizedDistance jsRem ratTrunc
      norm_num [abs_of_nonneg]
    norm_num [deriveAngleAspects, MAJOR_ANGLE_ASPECTS, List.flatMap_cons, List.flatMap_nil,
      List.filterMap_cons, List.filterMap_nil, hd, round2, sortAspects, abs_of_nonneg,
      List.mergeSort_singleton]
  · have hd : normalizedDistance 0 (959 / 10) = 959 / 10 := by
      unfold normalizedDistance jsRem ratTrunc
      norm_num [abs_of_nonneg]
    norm_num [deriveAngleAspects, MAJOR_ANGLE_ASPECTS, List.flatMap_cons, List.flatMap_nil,
      List.filterMap_cons, List.filterMap_nil, hd, round2, sortAspects, abs_of_nonneg,
      List.mergeSort_singleton]
  · have hd : normalizedDistance 0 (482 / 5) = 482 / 5 := by
      unfold normalizedDistance jsRem ratTrunc
      norm_num [abs_of_nonneg]
    norm_num [deriveAngleAspects, MAJOR_ANGLE_ASPECTS, List.flatMap_cons, List.flatMap_nil,
      List.filterMap_cons, List.filterMap_nil, hd, round2, sortAspects, abs_of_nonneg,
      List.mergeSort_nil]

/-- C4 (amended): provided no lowercased endpoint token or aspect type
contains the key-separator character `|`, `dedupeAspects` drops every
record whose lowercased endpoint tokens are equal, and for each group
(unordered pair of lowercased endpoint tokens, lowercased type, exact
degree) that occurs among the non-self input records it retains exactly
one record, one with the minimum orb of its group; in particular of two
records on the same unordered pair, type and degree differing only in orb,
exactly the smaller-orb one is retained, and a self pair is always
dropped. -/
theorem dedupeAspects_spec (aspects : List NatalAspect)
    (hpf : ∀ x ∈ aspects, noPipe (jsToLower x.p1) ∧ noPipe (jsToLower x.p2) ∧
      noPipe (jsToLower x.type)) :
    (∀ r ∈ dedupeAspects aspects,
      jsToLower r.p1 ≠ jsToLower r.p2 ∧ r ∈ aspects ∧
      ∀ x ∈ aspects, sameGroup x r → r.orb ≤ x.orb) ∧
    (∀ x ∈ aspects, jsToLower x.p1 ≠ jsToLower x.p2 →
      ∃! r, r ∈ dedupeAspects aspects ∧ sameGroup r x) ∧
    dedupeAspects [⟨"Sun", "Moon", "Trine", 2, 120, true⟩,
        ⟨"moon", "sun", "trine", 1, 120, true⟩] =
      [⟨"moon", "sun", "trine", 1, 120, true⟩] ∧
    dedupeAspects [⟨"north_node", "North_Node", "conjunction", 3, 0, true⟩] = [] := by
  have h0 : DedupeInv [] [] := ⟨by simp, by simp, by simp⟩
  have hinv : DedupeInv aspects (aspects.foldl dedupeStep []) := by
    simpa using dedupeInv_foldl aspects [] [] h0
  obtain ⟨h1, h2, h3⟩ := hinv
  refine ⟨?_, ?_, by decide, by decide⟩
  · intro r hr
    obtain ⟨e, he, her⟩ := List.mem_map.mp hr
    obtain ⟨he1, he2, he3⟩ := h1 e he
    subst her
    refine ⟨dedupeKey_ne_self e.2 e.1 he1, he2, ?_⟩
    intro x hx hgx
    exact he3 x hx ((dedupeKey_eq_of_sameGroup x e.2 hgx).trans he1)
  · intro x hx hnsx
    rcases hkox : dedupeKey x with _ | kx
    · rw [dedupeKey_of_ne x hnsx] at hkox
      exact Option.noConfusion hkox
    · obtain ⟨e, he, hek⟩ := h2 x hx kx hkox
      obtain ⟨he1, he2, he3⟩ := h1 e he
      obtain ⟨hx1, hx2, hxt⟩ := hpf x hx
      obtain ⟨hr1, hr2, hrt⟩ := hpf e.2 he2
      have hgroup : sameGroup e.2 x :=
        sameGroup_of_dedupeKey_eq e.2 x kx hr1 hr2 hx1 hx2 (hek ▸ he1) hkox
      refine ⟨e.2, ⟨List.mem_map_of_mem Prod.snd he, hgroup⟩, ?_⟩
      rintro r' ⟨hr'mem, hr'g⟩
      obtain ⟨e', he', her'⟩ := List.mem_map.mp hr'mem
      obtain ⟨he1', _, _⟩ := h1 e' he'
      have hkey' : dedupeKey e'.2 = some kx :=
        (dedupeKey_eq_of_sameGroup e'.2 x (her' ▸ hr'g)).trans hkox
      have he'k : e'.1 = kx := Option.some.inj (he1'.symm.trans hkey')
      have hee : e' = e := List.inj_on_of_nodup_map h3 he' he (by rw [he'k, hek])
      rw [← her', hee]

/-- C4 counterexample: with an endpoint token containing the key separator
`|`, two records that are in different groups under the claim's group key
collide on the same template-string map key, so the second record's group
retains no record at all: the per-group retention stated by the claim fails
on this input. -/
theorem dedupeAspects_pipe_counterexample :
    dedupeAspects [⟨"a|b", "c", "t", 1, 0, true⟩, ⟨"a", "b|c", "t", 2, 0, true⟩] =
      [⟨"a|b", "c", "t", 1, 0, true⟩] ∧
    jsToLower ("a" : String) ≠ jsToLower "b|c" ∧
    ¬ sameGroup ⟨"a|b", "c", "t", 1, 0, true⟩ ⟨"a", "b|c", "t", 2, 0, true⟩ ∧
    ¬ ∃ r ∈ dedupeAspects [⟨"a|b", "c", "t", 1, 0, true⟩, ⟨"a", "b|c", "t", 2, 0, true⟩],
        sameGroup r ⟨"a", "b|c", "t", 2, 0, true⟩ := by
  refine ⟨by decide, by decide, by decide, by decide⟩

/-- C4 witness: the pipe-free hypothesis holds for the two-record example
and the theorem then produces the unique retained record of its group. -/
theorem dedupeAspects_spec_witness :
    ∃! r, r ∈ dedupeAspects [⟨"Sun", "Moon", "Trine", 2, 120, true⟩,
        ⟨"moon", "sun", "trine", 1, 120, true⟩] ∧
      sameGroup r ⟨"Sun", "Moon", "Trine", 2, 120, true⟩ :=
  (dedupeAspects_spec
      [⟨"Sun", "Moon", "Trine", 2, 120, true⟩, ⟨"moon", "sun", "trine", 1, 120, true⟩]
      (by decide)).2.1
    ⟨"Sun", "Moon", "Trine", 2, 120, true⟩ (by decide) (by decide)

/-- C8: for the composed encode/decode pipeline — `JSON.stringify` split
into the object-to-JSON step and a rendering `render`, plus `toBase64`/
`encodeURIComponent` and their inverses as platform primitives satisfying
their inverse laws on the encoded envelope — encoding a schema-valid
envelope with a positive integral timestamp and then decoding it returns
the original envelope (same payload and same createdAt); and a failure of
percent-decoding, base64-decoding, JSON parsing or schema validation makes
the decoder return `none`: it is a total function and never throws to the
caller. -/
theorem reportEnvelope_spec (render : Json → String)
    (toB pe : String → String) (parse : String → Option Json)
    (fromB pd : String → Option String) :
    (∀ env : ReportEnvelope, ValidPayload env.payload → 0 < env.createdAt →
      pd (pe (toB (render (envelopeToJson env)))) =
        some (toB (render (envelopeToJson env))) →
      fromB (toB (render (envelopeToJson env))) =
        some (render (envelopeToJson env)) →
      parse (render (envelopeToJson env)) = some (envelopeToJson env) →
      decodeReportEnvelope parse fromB pd
        (encodeReportEnvelope render toB pe env) = some env) ∧
    (∀ s, pd s = none → decodeReportEnvelope parse fromB pd s = none) ∧
    (∀ s t, pd s = some t → fromB t = none →
      decodeReportEnvelope parse fromB pd s = none) ∧
    (∀ s t u, pd s = some t → fromB t = some u → parse u = none →
      decodeReportEnvelope parse fromB pd s = none) ∧
    (∀ s t u j, pd s = some t → fromB t = some u → parse u = some j →
      parseEnvelopeSchema j = none →
      decodeReportEnvelope parse fromB pd s = none) := by
  refine ⟨?_, ?_, ?_, ?_, ?_⟩
  · intro env hv hc hpd hfb hparse
    unfold decodeReportEnvelope encodeReportEnvelope
    simp only [hpd, hfb, hparse]
    exact parseEnvelope_roundtrip env hv hc
  · intro s h
    unfold decodeReportEnvelope
    rw [h]
  · intro s t h1 h2
    unfold decodeReportEnvelope
    simp only [h1, h2]
  · intro s t u h1 h2 h3
    unfold decodeReportEnvelope
    simp only [h1, h2, h3]
  · intro s t u j h1 h2 h3 h4
    unfold decodeReportEnvelope
    simp only [h1, h2, h3]
    exact h4

set_option maxRecDepth 100000 in
/-- C8 witness: the concrete witness codecs (JSON renderer/parser, base64,
percent-encoding) satisfy the platform inverse laws on the witness
envelope, and the full pipeline round-trips it. -/
theorem reportEnvelope_spec_witness :
    ValidPayload witnessEnvelope.payload ∧
    decodeReportEnvelope parseJsonW fromBase64W percentDecodeW
      (encodeReportEnvelope renderJsonW toBase64W percentEncodeW witnessEnvelope) =
      some witnessEnvelope :=
  ⟨by decide,
    (reportEnvelope_spec renderJsonW toBase64W percentEncodeW parseJsonW fromBase64W
        percentDecodeW).1 witnessEnvelope (by decide) (by decide)
      (by decide) (by decide) (by rfl)⟩

/-- C7: creating a highlight over [start, end) is rejected (the stored list
and counter are unchanged) exactly when some stored range [s, e) satisfies
start < e and end > s; otherwise the record is appended with a freshly
minted identifier; in particular with [10,20) stored, [15,25) is rejected
and [20,30) is accepted. -/
theorem addHighlight_spec (highlights : List StoredHighlight) (seq : ℕ)
    (start stop : ℚ) (color : String) :
    ((∃ item ∈ highlights, start < item.stop ∧ stop > item.start) →
      addHighlight highlights seq start stop color = (highlights, seq)) ∧
    ((∀ item ∈ highlights, ¬(start < item.stop ∧ stop > item.start)) →
      addHighlight highlights seq start stop color =
        (highlights ++ [⟨mkHighlightId start stop (seq + 1), start, stop, color⟩], seq + 1)) ∧
    addHighlight [⟨"h-10-20-1", 10, 20, "yellow"⟩] 1 15 25 "red" =
      ([⟨"h-10-20-1", 10, 20, "yellow"⟩], 1) ∧
    addHighlight [⟨"h-10-20-1", 10, 20, "yellow"⟩] 1 20 30 "red" =
      ([⟨"h-10-20-1", 10, 20, "yellow"⟩, ⟨mkHighlightId 20 30 2, 20, 30, "red"⟩], 2) := by
  refine ⟨?_, ?_, ?_, ?_⟩
  · intro h
    unfold addHighlight
    dsimp only
    rw [if_pos]
    simp only [List.any_eq_true, decide_eq_true_eq]
    exact h
  · intro h
    unfold addHighlight
    dsimp only
    rw [if_neg]
    simp only [List.any_eq_true, decide_eq_true_eq, not_exists]
    intro item hc
    exact h item hc.1 hc.2
  · norm_num [addHighlight, List.any_cons, List.any_nil]
  · norm_num [addHighlight, List.any_cons, List.any_nil]

/-- C7 witness: with [10,20) stored, creating [15,25) leaves the stored
list and the counter unchanged. -/
theorem addHighlight_spec_witness :
    addHighlight [⟨"h-10-20-1", 10, 20, "yellow"⟩] 5 15 25 "red" =
      ([⟨"h-10-20-1", 10, 20, "yellow"⟩], 5) :=
  (addHighlight_spec [⟨"h-10-20-1", 10, 20, "yellow"⟩] 5 15 25 "red").1
    ⟨⟨"h-10-20-1", 10, 20, "yellow"⟩, by simp, by norm_num, by norm_num⟩

/-- C10: loading persisted highlights is total and sanitizing: an absent
stored value, a parse failure, or a parsed non-array all load as the empty
list, and from an array exactly those entries survive that have the
stored-highlight shape (string id, numeric start/end, string color) with
start ≥ 0 and end > start. -/
theorem loadHighlights_spec (parse : String → Option Json) (s : String) :
    loadHighlights none parse = [] ∧
    (parse s = none → loadHighlights (some s) parse = []) ∧
    (∀ j, parse s = some j → (∀ items, j ≠ Json.arr items) →
      loadHighlights (some s) parse = []) ∧
    (∀ items, parse s = some (Json.arr items) →
      ∀ h : StoredHighlight,
        h ∈ loadHighlights (some s) parse ↔
          ∃ j ∈ items, readStoredHighlight j = some h ∧ 0 ≤ h.start ∧ h.start < h.stop) := by
  refine ⟨rfl, ?_, ?_, ?_⟩
  · intro h
    simp only [loadHighlights, h]
  · intro j hj hne
    cases j with
    | arr items => exact absurd rfl (hne items)
    | null => simp only [loadHighlights, hj]
    | bool b => simp only [loadHighlights, hj]
    | num q => simp only [loadHighlights, hj]
    | str t => simp only [loadHighlights, hj]
    | obj fields => simp only [loadHighlights, hj]
  · intro items hj h
    simp only [loadHighlights, hj]
    simp only [List.mem_filter, List.mem_filterMap, decide_eq_true_eq, ge_iff_le]
    constructor
    · rintro ⟨⟨j, hjmem, hread⟩, hrange⟩
      exact ⟨j, hjmem, hread, hrange.1, hrange.2⟩
    · rintro ⟨j, hjmem, hread, h1, h2⟩
      exact ⟨⟨j, hjmem, hread⟩, h1, h2⟩

/-- C10 witness: a stored value that fails to parse loads as the empty
highlight list. -/
theorem loadHighlights_spec_witness :
    loadHighlights (some "not json") (fun _ => none) = [] :=
  (loadHighlights_spec (fun _ => none) "not json").2.1 rfl

end OpenChart
